import Mathlib

/-!
Shallow embedding of the molecular docking platform.

Frontend source files embedded directly:
  - types/index.ts        : DockingJob, LigandResult, DockingParameters
  - JobStatus.tsx         : getProgressValue
  - Results.tsx           : getBestResult, sortedResults
  - DockingUpload.tsx     : client-side submit guards
  - services/api.ts       : API client calls

The backend (FastAPI service with the result parser, ligand pipeline,
orchestrator, job store and intake validation) is not present in the
source tree; those components are modelled from the spec, and each such
definition is marked with a doc comment starting with
"Modelled from the spec:".

JavaScript numbers are modelled as rationals, JavaScript strings as
Lean strings (with character-level operations over the underlying
character list so that concrete evaluation reduces).
-/

/-- Status union of DockingJob from types/index.ts:
status is one of pending, processing, completed, failed. -/
inductive JobStatus where
  | pending
  | processing
  | completed
  | failed
  deriving DecidableEq

/-- LigandResult interface from types/index.ts.  Its declared fields are
ligand_name, binding_affinity, rmsd_lower_bound, rmsd_upper_bound and the
optional pose_file; note that the declaration has no failure_reason field
and binding_affinity is a required numeric field. -/
structure LigandResult where
  ligand_name : String
  binding_affinity : ℚ
  rmsd_lower_bound : ℚ
  rmsd_upper_bound : ℚ
  pose_file : Option String
  deriving DecidableEq

/-- Field list of the LigandResult interface declaration in
types/index.ts, transcribed in declaration order as
(field name, is the field optional).  This records which fields the
LigandResult record carries. -/
def ligandResultFields : List (String × Bool) :=
  [("ligand_name", false),
   ("binding_affinity", false),
   ("rmsd_lower_bound", false),
   ("rmsd_upper_bound", false),
   ("pose_file", true)]

/-- DockingJob interface from types/index.ts. -/
structure DockingJob where
  job_id : String
  status : JobStatus
  receptor_name : String
  ligand_results : List LigandResult
  total_ligands : ℕ
  successful_docks : ℕ
  failed_docks : ℕ
  processing_time : Option ℚ
  error_message : Option String
  created_at : String
  completed_at : Option String
  deriving DecidableEq

/-- DockingParameters interface from types/index.ts. -/
structure DockingParameters where
  center_x : ℚ
  center_y : ℚ
  center_z : ℚ
  size_x : ℚ
  size_y : ℚ
  size_z : ℚ
  exhaustiveness : ℚ
  num_modes : ℚ
  deriving DecidableEq

/-- getProgressValue from JobStatus.tsx: 0 when no job is loaded, 10 for
pending, for processing (successful_docks / total_ligands) * 80 + 10 when
successful_docks > 0 and otherwise 20, and 100 for completed and failed. -/
def getProgressValue (job : Option DockingJob) : ℚ :=
  match job with
  | none => 0
  | some j =>
    match j.status with
    | JobStatus.pending => 10
    | JobStatus.processing =>
      if 0 < j.successful_docks then
        (j.successful_docks : ℚ) / (j.total_ligands : ℚ) * 80 + 10
      else 20
    | JobStatus.completed => 100
    | JobStatus.failed => 100

/-- The reducer body of getBestResult in Results.tsx: keep the current
element when its binding_affinity is strictly below the accumulated best. -/
def bestOf (best current : LigandResult) : LigandResult :=
  if current.binding_affinity < best.binding_affinity then current else best

/-- getBestResult from Results.tsx: null when there is no job or the
ligand_results list is empty, otherwise the reduce of the list with
bestOf starting from its head. -/
def getBestResult (job : Option DockingJob) : Option LigandResult :=
  match job with
  | none => none
  | some j =>
    match j.ligand_results with
    | [] => none
    | r :: rs => some (rs.foldl bestOf r)

/-- Helper: the running best of the fold in getBestResult is bounded by the
accumulator and by every element already consumed. -/
theorem foldl_bestOf_le (rs : List LigandResult) (acc : LigandResult) :
    (rs.foldl bestOf acc).binding_affinity ≤ acc.binding_affinity ∧
    ∀ r ∈ rs, (rs.foldl bestOf acc).binding_affinity ≤ r.binding_affinity := by
  induction rs generalizing acc with
  | nil => simp
  | cons a l ih =>
    simp only [List.foldl_cons, List.mem_cons]
    have h := ih (bestOf acc a)
    have hacc : (bestOf acc a).binding_affinity ≤ acc.binding_affinity := by
      unfold bestOf
      split
      · linarith
      · exact le_rfl
    have ha : (bestOf acc a).binding_affinity ≤ a.binding_affinity := by
      unfold bestOf
      split
      · exact le_rfl
      · linarith [not_lt.mp (by assumption : ¬ a.binding_affinity < acc.binding_affinity)]
    refine ⟨le_trans h.1 hacc, ?_⟩
    intro r hr
    rcases hr with rfl | hcase
    · exact le_trans h.1 ha
    · exact h.2 r hcase

/-- Claim C8: for a job with a non-empty ligand_results list, the result
returned by getBestResult has binding_affinity less than or equal to that of
every LigandResult in the list; for an empty list no best result is
identified and null is returned. -/
theorem getBestResult_is_min (j : DockingJob) :
    (j.ligand_results = [] → getBestResult (some j) = none) ∧
    ∀ b, getBestResult (some j) = some b →
      ∀ r ∈ j.ligand_results, b.binding_affinity ≤ r.binding_affinity := by
  cases hres : j.ligand_results with
  | nil =>
    refine ⟨fun _ => ?_, fun b hb => ?_⟩
    · simp [getBestResult, hres]
    · simp [getBestResult, hres] at hb
  | cons r rs =>
    refine ⟨fun hnil => (by simp at hnil), fun b hb x hx => ?_⟩
    have hb2 : b = rs.foldl bestOf r := by
      simp [getBestResult, hres] at hb
      exact hb.symm
    subst hb2
    rcases List.mem_cons.mp hx with hcase | hcase
    · exact hcase ▸ (foldl_bestOf_le rs r).1
    · exact (foldl_bestOf_le rs r).2 x hcase

/-- Concrete two-ligand job used to witness claim C8. -/
def bestJobEx : DockingJob :=
  { job_id := "job-8"
    status := JobStatus.completed
    receptor_name := "1abc.pdbqt"
    ligand_results :=
      [{ ligand_name := "lig1.sdf", binding_affinity := -5,
         rmsd_lower_bound := 0, rmsd_upper_bound := 1, pose_file := none },
       { ligand_name := "lig2.sdf", binding_affinity := -9,
         rmsd_lower_bound := 0, rmsd_upper_bound := 2, pose_file := none }]
    total_ligands := 2
    successful_docks := 2
    failed_docks := 0
    processing_time := some 3
    error_message := none
    created_at := "t0"
    completed_at := some "t1" }

/-- Witness for claim C8: on the concrete job bestJobEx, getBestResult picks
the ligand with affinity -9, which is below the affinity -5 of the other
entry. -/
theorem getBestResult_is_min_witness :
    ({ ligand_name := "lig2.sdf", binding_affinity := -9,
       rmsd_lower_bound := 0, rmsd_upper_bound := 2,
       pose_file := none } : LigandResult).binding_affinity ≤
    ({ ligand_name := "lig1.sdf", binding_affinity := -5,
       rmsd_lower_bound := 0, rmsd_upper_bound := 1,
       pose_file := none } : LigandResult).binding_affinity :=
  (getBestResult_is_min bestJobEx).2 _ (by decide) _ (by decide)

/-- Claim C10 (amended): for a job with total_ligands at least 1 and
successful_docks at most total_ligands, getProgressValue lies in [0, 100];
it is exactly 100 when the status is completed or failed, exactly 10 when
pending, and strictly above 10 and at most 90 while processing (it equals 20
when no dock has succeeded yet, but can drop below 20 once the first dock
succeeds, e.g. 15 at 1 of 16). -/
theorem getProgressValue_bounds (j : DockingJob)
    (ht : 1 ≤ j.total_ligands) (hs : j.successful_docks ≤ j.total_ligands) :
    (0 ≤ getProgressValue (some j) ∧ getProgressValue (some j) ≤ 100) ∧
    ((j.status = JobStatus.completed ∨ j.status = JobStatus.failed) →
      getProgressValue (some j) = 100) ∧
    (j.status = JobStatus.pending → getProgressValue (some j) = 10) ∧
    (j.status = JobStatus.processing →
      10 < getProgressValue (some j) ∧ getProgressValue (some j) ≤ 90) := by
  have htq : (1 : ℚ) ≤ (j.total_ligands : ℚ) := by exact_mod_cast ht
  have htpos : (0 : ℚ) < (j.total_ligands : ℚ) := lt_of_lt_of_le one_pos htq
  cases hst : j.status with
  | pending =>
    simp [getProgressValue, hst]
    norm_num
  | completed =>
    simp [getProgressValue, hst]
  | failed =>
    simp [getProgressValue, hst]
  | processing =>
    by_cases hpos : 0 < j.successful_docks
    · have hsq : (1 : ℚ) ≤ (j.successful_docks : ℚ) := by exact_mod_cast hpos
      have hle : (j.successful_docks : ℚ) ≤ (j.total_ligands : ℚ) := by
        exact_mod_cast hs
      have hfrac1 : (j.successful_docks : ℚ) / (j.total_ligands : ℚ) ≤ 1 :=
        (div_le_one htpos).mpr hle
      have hfrac0 : 0 < (j.successful_docks : ℚ) / (j.total_ligands : ℚ) :=
        div_pos (lt_of_lt_of_le one_pos hsq) htpos
      simp only [getProgressValue, hst, if_pos hpos]
      refine ⟨⟨by linarith, by linarith⟩, ?_, ?_, fun _ => ⟨by linarith, by linarith⟩⟩
      · rintro (h | h) <;> simp at h
      · intro h; simp at h
    · simp only [getProgressValue, hst, if_neg hpos]
      refine ⟨⟨by norm_num, by norm_num⟩, ?_, ?_, fun _ => ⟨by norm_num, by norm_num⟩⟩
      · rintro (h | h) <;> simp at h
      · intro h; simp at h

/-- Concrete processing job showing that the original claim C10 fails: one
successful dock out of sixteen gives progress 15, which is below 20. -/
def progressJobEx : DockingJob :=
  { job_id := "job-10"
    status := JobStatus.processing
    receptor_name := "1abc.pdbqt"
    ligand_results := []
    total_ligands := 16
    successful_docks := 1
    failed_docks := 0
    processing_time := none
    error_message := none
    created_at := "t0"
    completed_at := none }

/-- Counterexample to claim C10 as stated: progressJobEx satisfies the
hypotheses (status processing, 1 ≤ total_ligands, successful_docks ≤
total_ligands), yet its progress value is 15, not within [20, 90]. -/
theorem getProgressValue_below_twenty :
    progressJobEx.status = JobStatus.processing ∧
    1 ≤ progressJobEx.total_ligands ∧
    progressJobEx.successful_docks ≤ progressJobEx.total_ligands ∧
    getProgressValue (some progressJobEx) = 15 ∧
    ¬ (20 ≤ getProgressValue (some progressJobEx)) := by
  refine ⟨rfl, by norm_num [progressJobEx], by norm_num [progressJobEx], ?_, ?_⟩ <;>
    norm_num [getProgressValue, progressJobEx]

/-- Concrete pending job used to witness claim C10. -/
def pendingJobEx : DockingJob :=
  { job_id := "job-10b"
    status := JobStatus.pending
    receptor_name := "1abc.pdbqt"
    ligand_results := []
    total_ligands := 2
    successful_docks := 0
    failed_docks := 0
    processing_time := none
    error_message := none
    created_at := "t0"
    completed_at := none }

/-- Witness for claim C10: the amended bounds theorem applied to the concrete
pending job pendingJobEx yields progress exactly 10. -/
theorem getProgressValue_bounds_witness :
    getProgressValue (some pendingJobEx) = 10 :=
  (getProgressValue_bounds pendingJobEx (by norm_num [pendingJobEx])
    (by norm_num [pendingJobEx])).2.2.1 rfl

/-- Sort field union type from Results.tsx. -/
inductive SortField where
  | ligand_name
  | binding_affinity
  | rmsd_lower_bound
  | rmsd_upper_bound
  deriving DecidableEq

/-- Sort direction union type from Results.tsx. -/
inductive SortDirection where
  | asc
  | desc
  deriving DecidableEq

/-- JavaScript string comparison with the < operator: lexicographic by
character code, a strict prefix being smaller. -/
def strLtChars : List Char → List Char → Bool
  | [], [] => false
  | [], _ :: _ => true
  | _ :: _, [] => false
  | a :: as, b :: bs =>
    if a < b then true else if b < a then false else strLtChars as bs

/-- toLowerCase applied to a string, character by character. -/
def lowerStr (s : String) : String := ⟨s.data.map Char.toLower⟩

/-- The three-way comparator body from Results.tsx over a strict-order test:
ascending gives -1 when the first value is smaller, 1 when larger, else 0;
descending swaps -1 and 1. -/
def cmpOf {α : Type} (lt : α → α → Bool) (d : SortDirection) (x y : α) : Int :=
  match d with
  | SortDirection.asc => if lt x y then -1 else if lt y x then 1 else 0
  | SortDirection.desc => if lt y x then -1 else if lt x y then 1 else 0

/-- The comparator passed to sort in sortedResults (Results.tsx): it reads
the selected field of both rows, lowercases string values, and compares with
the < operator in the selected direction. -/
def jsCompare (f : SortField) (d : SortDirection) (a b : LigandResult) : Int :=
  match f with
  | SortField.ligand_name =>
    cmpOf (fun x y => strLtChars x.data y.data) d
      (lowerStr a.ligand_name) (lowerStr b.ligand_name)
  | SortField.binding_affinity =>
    cmpOf (fun x y : ℚ => decide (x < y)) d a.binding_affinity b.binding_affinity
  | SortField.rmsd_lower_bound =>
    cmpOf (fun x y : ℚ => decide (x < y)) d a.rmsd_lower_bound b.rmsd_lower_bound
  | SortField.rmsd_upper_bound =>
    cmpOf (fun x y : ℚ => decide (x < y)) d a.rmsd_upper_bound b.rmsd_upper_bound

/-- Row order induced by the comparator: a sorts no later than b exactly when
the comparator returns a nonpositive value. -/
def jsLe (f : SortField) (d : SortDirection) (a b : LigandResult) : Bool :=
  jsCompare f d a b ≤ 0

/-- Insertion step of the comparator-respecting stable sort modelling
Array.prototype.sort. -/
def insertBy {α : Type} (le : α → α → Bool) (a : α) : List α → List α
  | [] => [a]
  | b :: l => if le a b then a :: b :: l else b :: insertBy le a l

/-- Comparator-respecting stable sort modelling Array.prototype.sort. -/
def sortBy {α : Type} (le : α → α → Bool) (l : List α) : List α :=
  l.foldr (insertBy le) []

/-- Array.prototype.slice() with no arguments: a fresh copy of the array
holding the same elements. -/
def sliceCopy (l : List LigandResult) : List LigandResult := l

/-- sortedResults from Results.tsx: the empty list when no job is loaded,
otherwise job.ligand_results.slice() sorted with the comparator. -/
def sortedResults (job : Option DockingJob) (f : SortField) (d : SortDirection) :
    List LigandResult :=
  match job with
  | none => []
  | some j => sortBy (jsLe f d) (sliceCopy j.ligand_results)

/-- State semantics of the sortedResults computation: slice() allocates a
fresh copy of the ligand_results array and sort() mutates only that copy in
place, so the computation yields the displayed (sorted) array together with
the value of job.ligand_results after the computation. -/
def computeSortedResults (f : SortField) (d : SortDirection)
    (underlying : List LigandResult) : List LigandResult × List LigandResult :=
  (sortBy (jsLe f d) (sliceCopy underlying), underlying)

/-- Inserting an element is a permutation of consing it. -/
theorem insertBy_perm {α : Type} (le : α → α → Bool) (a : α) (l : List α) :
    List.Perm (insertBy le a l) (a :: l) := by
  induction l with
  | nil => simp [insertBy]
  | cons b l ih =>
    simp only [insertBy]
    split
    · exact List.Perm.refl _
    · exact (ih.cons b).trans (List.Perm.swap a b l)

/-- sortBy permutes its input. -/
theorem sortBy_perm {α : Type} (le : α → α → Bool) (l : List α) :
    List.Perm (sortBy le l) l := by
  induction l with
  | nil => simp [sortBy]
  | cons a l ih =>
    simpa [sortBy] using (insertBy_perm le a (sortBy le l)).trans (ih.cons a)

/-- Inserting into a list that is pairwise ordered by a total transitive
comparison keeps it pairwise ordered. -/
theorem pairwise_insertBy {α : Type} (le : α → α → Bool)
    (htot : ∀ x y, le x y = true ∨ le y x = true)
    (htrans : ∀ x y z, le x y = true → le y z = true → le x z = true)
    (a : α) (l : List α) (hl : l.Pairwise (fun x y => le x y = true)) :
    (insertBy le a l).Pairwise (fun x y => le x y = true) := by
  induction l with
  | nil => simp [insertBy]
  | cons b l ih =>
    rcases List.pairwise_cons.mp hl with ⟨hb, hl2⟩
    simp only [insertBy]
    split
    · rename_i hab
      refine List.pairwise_cons.mpr ⟨?_, hl⟩
      intro x hx
      rcases List.mem_cons.mp hx with rfl | hx2
      · exact hab
      · exact htrans a b x hab (hb x hx2)
    · rename_i hab
      have hba : le b a = true := by
        rcases htot a b with h | h
        · exact absurd h hab
        · exact h
      refine List.pairwise_cons.mpr ⟨?_, ih hl2⟩
      intro x hx
      have hx3 : x ∈ a :: l := (insertBy_perm le a l).mem_iff.mp hx
      rcases List.mem_cons.mp hx3 with rfl | hx4
      · exact hba
      · exact hb x hx4

/-- sortBy produces a list that is pairwise ordered by a total transitive
comparison. -/
theorem pairwise_sortBy {α : Type} (le : α → α → Bool)
    (htot : ∀ x y, le x y = true ∨ le y x = true)
    (htrans : ∀ x y z, le x y = true → le y z = true → le x z = true)
    (l : List α) :
    (sortBy le l).Pairwise (fun x y => le x y = true) := by
  induction l with
  | nil => simp [sortBy]
  | cons a l ih => simpa [sortBy] using pairwise_insertBy le htot htrans a _ ih

/-- The JavaScript string order is asymmetric. -/
theorem strLtChars_asymm :
    ∀ as bs, strLtChars as bs = true → strLtChars bs as = false := by
  intro as
  induction as with
  | nil =>
    intro bs h
    cases bs <;> simp [strLtChars] at h ⊢
  | cons a as ih =>
    intro bs h
    cases bs with
    | nil => simp [strLtChars] at h
    | cons b bs =>
      simp only [strLtChars] at h ⊢
      by_cases hab : a < b
      · simp [hab, lt_asymm hab]
      · by_cases hba : b < a
        · simp [hab, hba] at h
        · simp [hab, hba] at h ⊢
          exact ih bs h

/-- The JavaScript string order is negatively transitive. -/
theorem strLtChars_negtrans :
    ∀ as bs cs, strLtChars as bs = false → strLtChars bs cs = false →
      strLtChars as cs = false := by
  intro as
  induction as with
  | nil =>
    intro bs cs h1 h2
    cases bs with
    | nil => exact h2
    | cons b bs => simp [strLtChars] at h1
  | cons a as ih =>
    intro bs cs h1 h2
    cases cs with
    | nil => cases bs <;> simp [strLtChars]
    | cons c cs =>
      cases bs with
      | nil => simp [strLtChars] at h2
      | cons b bs =>
        simp only [strLtChars] at h1 h2 ⊢
        by_cases hab : a < b
        · simp [hab] at h1
        · by_cases hbc : b < c
          · simp [hbc] at h2
          · have hba : b ≤ a := not_lt.mp hab
            have hcb : c ≤ b := not_lt.mp hbc
            have hac : ¬ a < c := not_lt.mpr (le_trans hcb hba)
            simp only [hac, if_false]
            by_cases hca : c < a
            · simp [hca]
            · have hca2 : a ≤ c := not_lt.mp hca
              have hac2 : a = c := le_antisymm hca2 (le_trans hcb hba)
              have hb1 : ¬ b < a := not_lt.mpr (le_trans (le_of_eq hac2) hcb)
              have hb2 : ¬ c < b := not_lt.mpr (le_trans hba (le_of_eq hac2))
              simp [hab, hb1] at h1
              simp [hbc, hb2] at h2
              simp [hca]
              exact ih bs cs h1 h2

/-- The rational strict comparison used by the comparator is asymmetric. -/
theorem ratLt_asymm (x y : ℚ) :
    decide (x < y) = true → decide (y < x) = false := by
  intro h
  exact decide_eq_false (not_lt.mpr (le_of_lt (of_decide_eq_true h)))

/-- The rational strict comparison used by the comparator is negatively
transitive. -/
theorem ratLt_negtrans (x y z : ℚ) :
    decide (x < y) = false → decide (y < z) = false → decide (x < z) = false := by
  intro h1 h2
  exact decide_eq_false
    (not_lt.mpr (le_trans (not_lt.mp (of_decide_eq_false h2))
      (not_lt.mp (of_decide_eq_false h1))))

/-- A nonpositive comparator value characterized through the underlying
strict comparison. -/
theorem cmpOf_nonpos {α : Type} (lt : α → α → Bool)
    (hasym : ∀ x y, lt x y = true → lt y x = false)
    (d : SortDirection) (x y : α) :
    (cmpOf lt d x y ≤ 0) ↔
      (match d with
       | SortDirection.asc => lt y x = false
       | SortDirection.desc => lt x y = false) := by
  cases d <;> simp only [cmpOf]
  · by_cases h1 : lt x y = true
    · simp [h1, hasym x y h1]
    · by_cases h2 : lt y x = true
      · simp [h1, h2]
      · simp [h1, h2, Bool.not_eq_true] at *
  · by_cases h1 : lt y x = true
    · simp [h1, hasym y x h1]
    · by_cases h2 : lt x y = true
      · simp [h1, h2]
      · simp [h1, h2, Bool.not_eq_true] at *

/-- The nonpositive-comparator order is total and transitive whenever the
underlying strict comparison is asymmetric and negatively transitive. -/
theorem cmpOf_total_trans {α : Type} (lt : α → α → Bool)
    (hasym : ∀ x y, lt x y = true → lt y x = false)
    (hneg : ∀ x y z, lt x y = false → lt y z = false → lt x z = false)
    (d : SortDirection) :
    (∀ x y, cmpOf lt d x y ≤ 0 ∨ cmpOf lt d y x ≤ 0) ∧
    (∀ x y z, cmpOf lt d x y ≤ 0 → cmpOf lt d y z ≤ 0 → cmpOf lt d x z ≤ 0) := by
  have hnot : ∀ x y, lt x y = true → ¬ lt y x = true := by
    intro x y h hcontra
    rw [hasym x y h] at hcontra
    exact Bool.false_ne_true hcontra
  constructor
  · intro x y
    rw [cmpOf_nonpos lt hasym, cmpOf_nonpos lt hasym]
    cases d
    · by_cases h : lt y x = true
      · exact Or.inr (hasym y x h)
      · exact Or.inl (Bool.eq_false_iff.mpr h)
    · by_cases h : lt x y = true
      · exact Or.inr (hasym x y h)
      · exact Or.inl (Bool.eq_false_iff.mpr h)
  · intro x y z h1 h2
    rw [cmpOf_nonpos lt hasym] at h1 h2 ⊢
    cases d
    · exact hneg z y x h2 h1
    · exact hneg x y z h1 h2

/-- The row order jsLe is total and transitive for every sort field and
direction. -/
theorem jsLe_total_trans (f : SortField) (d : SortDirection) :
    (∀ a b, jsLe f d a b = true ∨ jsLe f d b a = true) ∧
    (∀ a b c, jsLe f d a b = true → jsLe f d b c = true → jsLe f d a c = true) := by
  have hstr := cmpOf_total_trans (fun x y : String => strLtChars x.data y.data)
    (fun x y h => strLtChars_asymm x.data y.data h)
    (fun x y z h1 h2 => strLtChars_negtrans x.data y.data z.data h1 h2) d
  have hrat := cmpOf_total_trans (fun x y : ℚ => decide (x < y))
    (fun x y h => ratLt_asymm x y h)
    (fun x y z h1 h2 => ratLt_negtrans x y z h1 h2) d
  cases f <;>
    refine ⟨fun a b => ?_, fun a b c h1 h2 => ?_⟩ <;>
      simp only [jsLe, jsCompare, decide_eq_true_iff] at *
  · exact hstr.1 _ _
  · exact hstr.2 _ _ _ h1 h2
  · exact hrat.1 _ _
  · exact hrat.2 _ _ _ h1 h2
  · exact hrat.1 _ _
  · exact hrat.2 _ _ _ h1 h2
  · exact hrat.1 _ _
  · exact hrat.2 _ _ _ h1 h2

/-- Claim C9: for every job snapshot and every choice of sort field and
direction, sortedResults is a permutation of job.ligand_results, it is
ordered by the comparator for the selected field and direction, and the
computation sorts a slice copy so the underlying job.ligand_results array is
left unchanged. -/
theorem sortedResults_perm_sorted_frame (j : DockingJob) (f : SortField)
    (d : SortDirection) :
    List.Perm (sortedResults (some j) f d) j.ligand_results ∧
    List.Pairwise (fun a b => jsLe f d a b = true) (sortedResults (some j) f d) ∧
    computeSortedResults f d j.ligand_results =
      (sortedResults (some j) f d, j.ligand_results) := by
  obtain ⟨htot, htrans⟩ := jsLe_total_trans f d
  refine ⟨?_, ?_, rfl⟩
  · simpa [sortedResults, sliceCopy] using sortBy_perm (jsLe f d) j.ligand_results
  · simpa [sortedResults, sliceCopy] using
      pairwise_sortBy (jsLe f d) htot htrans j.ligand_results

/-- Modelled from the spec: PoseRecord produced by the backend Result Parser
(section 4.3); the backend service itself is not in the source tree.  One
record per pose line: rank, affinity, rmsd lower bound, rmsd upper bound. -/
structure PoseRecord where
  rank : ℕ
  affinity : ℚ
  rmsdLower : ℚ
  rmsdUpper : ℚ
  deriving DecidableEq

/-- Modelled from the spec: failure of the backend Result Parser when no
well-formed pose line is found (section 4.3). -/
inductive ParseError where
  | NoPosesFound
  deriving DecidableEq

/-- A nonempty all-digit token. -/
def isDigits (cs : List Char) : Bool := !cs.isEmpty && cs.all (fun c => c.isDigit)

/-- Value of a digit token. -/
def digitsToNat (cs : List Char) : ℕ :=
  cs.foldl (fun n c => n * 10 + (c.toNat - 48)) 0

/-- Parse the rank column, a natural number token. -/
def parseNatTok (cs : List Char) : Option ℕ :=
  if isDigits cs then some (digitsToNat cs) else none

/-- Split a token at its first dot: characters before it and, when a dot is
present, the characters after it. -/
def splitDot : List Char → List Char × Option (List Char)
  | [] => ([], none)
  | c :: cs =>
    if c = '.' then ([], some cs)
    else
      let p := splitDot cs
      (c :: p.1, p.2)

/-- Parse an unsigned decimal token: digits with an optional fractional
part. -/
def parseUDec (cs : List Char) : Option ℚ :=
  match splitDot cs with
  | (ip, none) => if isDigits ip then some ((digitsToNat ip : ℕ) : ℚ) else none
  | (ip, some fp) =>
    if isDigits ip && isDigits fp then
      some ((digitsToNat ip : ℚ) + (digitsToNat fp : ℚ) / ((10 : ℚ) ^ fp.length))
    else none

/-- Parse a signed decimal token: an optional leading minus before an
unsigned decimal. -/
def parseDec : List Char → Option ℚ
  | '-' :: cs => (parseUDec cs).map Neg.neg
  | cs => parseUDec cs

/-- Split a character list into whitespace-separated tokens. -/
def wordsAux : List Char → List Char → List (List Char)
  | [], acc => if acc.isEmpty then [] else [acc.reverse]
  | c :: cs, acc =>
    if c = ' ' || c = '\t' then
      if acc.isEmpty then wordsAux cs [] else acc.reverse :: wordsAux cs []
    else wordsAux cs (c :: acc)

/-- Whitespace-separated tokens of a line. -/
def words (cs : List Char) : List (List Char) := wordsAux cs []

/-- Split a character list into lines at newline characters. -/
def linesAux : List Char → List Char → List (List Char)
  | [], acc => [acc.reverse]
  | c :: cs, acc =>
    if c = '\n' then acc.reverse :: linesAux cs [] else linesAux cs (c :: acc)

/-- Lines of the engine output text. -/
def splitLines (cs : List Char) : List (List Char) := linesAux cs []

/-- Modelled from the spec: one line of the fixed column layout recognized by
the backend Result Parser (section 4.3): four whitespace-separated tokens
read as rank, affinity, rmsd lower bound and rmsd upper bound; any line not
matching this numeric pattern (banner and header lines) yields none. -/
def parseLineChars (line : List Char) : Option PoseRecord :=
  match words line with
  | [rk, av, lo, hi] =>
    match parseNatTok rk, parseDec av, parseDec lo, parseDec hi with
    | some r, some a, some l, some u => some ⟨r, a, l, u⟩
    | _, _, _, _ => none
  | _ => none

/-- Modelled from the spec: the backend Result Parser (section 4.3), which is
not in the source tree.  It scans the engine output line by line, skips lines
that do not match the pose pattern, and fails with NoPosesFound when no
well-formed pose line is present. -/
def parse (engineOutputText : String) : Except ParseError (List PoseRecord) :=
  if ((splitLines engineOutputText.data).filterMap parseLineChars).isEmpty then
    Except.error ParseError.NoPosesFound
  else Except.ok ((splitLines engineOutputText.data).filterMap parseLineChars)

/-- filterMap returns exactly the image of a list whose elements all parse. -/
theorem filterMap_of_forall2 {α β : Type} (f : α → Option β) {l : List α}
    {rs : List β} (h : List.Forall₂ (fun x r => f x = some r) l rs) :
    l.filterMap f = rs := by
  induction h with
  | nil => rfl
  | cons hfr _ ih => simp [List.filterMap_cons, hfr, ih]

/-- Claim C4: for every engine output block whose lines are banner or header
lines not matching the pose pattern together with well-formed pose lines
ranked 1..k in order, parse succeeds with exactly those k PoseRecords, in
rank order, carrying the numerically exact parsed fields; for every block in
which no line matches the pose pattern, parse fails with NoPosesFound. -/
theorem parse_poses_roundtrip :
    (∀ (text : String) (banner poseLines : List (List Char))
       (recs : List PoseRecord),
      splitLines text.data = banner ++ poseLines →
      (∀ l ∈ banner, parseLineChars l = none) →
      List.Forall₂ (fun l r => parseLineChars l = some r) poseLines recs →
      (∀ i : ℕ, ∀ h : i < recs.length, (recs.get ⟨i, h⟩).rank = i + 1) →
      recs ≠ [] →
      parse text = Except.ok recs ∧ recs.length = poseLines.length ∧
        recs.map PoseRecord.rank = List.range' 1 poseLines.length) ∧
    (∀ text : String,
      (∀ l ∈ splitLines text.data, parseLineChars l = none) →
      parse text = Except.error ParseError.NoPosesFound) := by
  constructor
  · intro text banner poseLines recs hsplit hban hpose hrank hne
    have hlen : recs.length = poseLines.length := hpose.length_eq.symm
    have hfm : (splitLines text.data).filterMap parseLineChars = recs := by
      rw [hsplit, List.filterMap_append, List.filterMap_eq_nil_iff.mpr hban,
        filterMap_of_forall2 _ hpose]
      simp
    have hmap : recs.map PoseRecord.rank = List.range' 1 recs.length := by
      apply List.ext_getElem
      · simp
      · intro i h1 h2
        simp only [List.getElem_map, List.getElem_range']
        have hi : i < recs.length := by simpa using h1
        have := hrank i hi
        simp only [List.get_eq_getElem] at this
        omega
    refine ⟨?_, hlen, hlen ▸ hmap⟩
    unfold parse
    rw [hfm, if_neg (by simpa using hne)]
  · intro text hall
    unfold parse
    rw [List.filterMap_eq_nil_iff.mpr hall]
    simp

/-- Witness for claim C4: a concrete engine output block with two banner
lines and two pose lines parses to exactly those records in rank order, and
a block with no pose line fails with NoPosesFound. -/
theorem parse_poses_roundtrip_witness :
    parse "AutoDock Vina output\nmode affinity rmsdlb rmsdub\n1 -7 0 2\n2 -6 1 3"
      = Except.ok
        [{ rank := 1, affinity := -7, rmsdLower := 0, rmsdUpper := 2 },
         { rank := 2, affinity := -6, rmsdLower := 1, rmsdUpper := 3 }] ∧
    parse "AutoDock Vina output\nno poses here" =
      Except.error ParseError.NoPosesFound :=
  ⟨(parse_poses_roundtrip.1
      "AutoDock Vina output\nmode affinity rmsdlb rmsdub\n1 -7 0 2\n2 -6 1 3"
      ["AutoDock Vina output".data, "mode affinity rmsdlb rmsdub".data]
      ["1 -7 0 2".data, "2 -6 1 3".data]
      [{ rank := 1, affinity := -7, rmsdLower := 0, rmsdUpper := 2 },
       { rank := 2, affinity := -6, rmsdLower := 1, rmsdUpper := 3 }]
      (by decide) (by decide)
      (List.Forall₂.cons (by decide)
        (List.Forall₂.cons (by decide) List.Forall₂.nil))
      (by decide) (by decide)).1,
   parse_poses_roundtrip.2 "AutoDock Vina output\nno poses here" (by decide)⟩

/-- Modelled from the spec: outcome of one external tool invocation under the
Toolchain Runner contract (section 4.2): clean exit, nonzero exit with
captured stderr, or exceeded time budget. -/
inductive ToolRes where
  | ok
  | failed (exitCode : ℤ) (stderr : String)
  | timeout
  deriving DecidableEq

/-- Modelled from the spec: the environment one ligand pipeline runs in
(sections 4.2 to 4.4): the ligand name, the outcome of its preparation step,
the outcome of its docking engine invocation, and the engine output text. -/
structure LigandEnv where
  name : String
  prep : ToolRes
  dock : ToolRes
  engineOut : String
  deriving DecidableEq

/-- Modelled from the spec: the per-ligand pipeline (section 4.4).  Every
exit point yields exactly one LigandResult together with an optional failure
reason, which is none exactly when the dock succeeded.  The LigandResult
record of types/index.ts has a required numeric binding_affinity and no
failure_reason field, so a failed ligand keeps zero scores and the reason is
reported alongside the record.  On success the record is populated from the
rank-1 PoseRecord of the parsed engine output. -/
def runLigand (env : LigandEnv) : LigandResult × Option String :=
  match env.prep with
  | ToolRes.failed _ _ =>
    (⟨env.name, 0, 0, 0, none⟩, some "ligand preparation failed")
  | ToolRes.timeout =>
    (⟨env.name, 0, 0, 0, none⟩, some "ligand preparation timed out")
  | ToolRes.ok =>
    match env.dock with
    | ToolRes.failed _ _ =>
      (⟨env.name, 0, 0, 0, none⟩, some "docking engine failed")
    | ToolRes.timeout =>
      (⟨env.name, 0, 0, 0, none⟩, some "docking engine timed out")
    | ToolRes.ok =>
      match parse env.engineOut with
      | Except.error ParseError.NoPosesFound =>
        (⟨env.name, 0, 0, 0, none⟩, some "NoPosesFound")
      | Except.ok [] =>
        (⟨env.name, 0, 0, 0, none⟩, some "NoPosesFound")
      | Except.ok (p :: _) =>
        (⟨env.name, p.affinity, p.rmsdLower, p.rmsdUpper,
          some (env.name ++ "_out.pdbqt")⟩, none)

/-- Whether the pipeline of one ligand fails. -/
def ligandFails (env : LigandEnv) : Bool := (runLigand env).2.isSome

/-- Modelled from the spec: one result arrival during the processing phase
(section 4.5): atomically append the LigandResult and bump the matching
counter. -/
def recordResult (j : DockingJob) (res : LigandResult × Option String) :
    DockingJob :=
  { j with
    ligand_results := j.ligand_results ++ [res.1]
    successful_docks := j.successful_docks + (if res.2.isNone then 1 else 0)
    failed_docks := j.failed_docks + (if res.2.isNone then 0 else 1) }

/-- Modelled from the spec: job-level faults (sections 4.5, 7): receptor
preparation failure or workspace creation failure, fatal to the whole job. -/
inductive JobFault where
  | receptorPrep
  | workspace
  deriving DecidableEq

/-- Modelled from the spec: one Job Orchestrator execution (sections 4.4,
4.5, 7): the job moves to processing; a job-level fault sets status failed
with an error_message and attempts no ligand; otherwise every ligand runs
its pipeline, every outcome is recorded, and the job reaches completed.
The fold records outcomes in the order of its input list; per section 5 the
stored entry order reflects completion order, not submission order, so
statements about a submitted batch quantify over an arbitrary permutation
of the batch wherever order could matter. -/
def runJob (init : DockingJob) (fault : Option JobFault) (envs : List LigandEnv)
    (t : ℚ) (ct : String) : DockingJob :=
  let j := { init with status := JobStatus.processing }
  match fault with
  | some JobFault.receptorPrep =>
    { j with status := JobStatus.failed
             error_message := some "receptor preparation failed"
             processing_time := some t
             completed_at := some ct }
  | some JobFault.workspace =>
    { j with status := JobStatus.failed
             error_message := some "workspace creation failed"
             processing_time := some t
             completed_at := some ct }
  | none =>
    let jdone := envs.foldl (fun acc env => recordResult acc (runLigand env)) j
    { jdone with status := JobStatus.completed
                 processing_time := some t
                 completed_at := some ct }

/-- Field accounting of the recording fold in runJob. -/
theorem foldl_recordResult (envs : List LigandEnv) (j : DockingJob) :
    (envs.foldl (fun acc env => recordResult acc (runLigand env)) j).ligand_results
      = j.ligand_results ++ envs.map (fun e => (runLigand e).1) ∧
    (envs.foldl (fun acc env => recordResult acc (runLigand env)) j).successful_docks
      = j.successful_docks + (envs.filter (fun e => !ligandFails e)).length ∧
    (envs.foldl (fun acc env => recordResult acc (runLigand env)) j).failed_docks
      = j.failed_docks + (envs.filter (fun e => ligandFails e)).length ∧
    (envs.foldl (fun acc env => recordResult acc (runLigand env)) j).status
      = j.status ∧
    (envs.foldl (fun acc env => recordResult acc (runLigand env)) j).total_ligands
      = j.total_ligands := by
  induction envs generalizing j with
  | nil => simp
  | cons e envs ih =>
    simp only [List.foldl_cons, List.map_cons, List.filter_cons]
    obtain ⟨ihr, ihs, ihf, ihst, iht⟩ := ih (recordResult j (runLigand e))
    refine ⟨?_, ?_, ?_, ?_, ?_⟩
    · rw [ihr]
      simp [recordResult, List.append_assoc]
    · rw [ihs]
      cases hfail : (runLigand e).2 with
      | none =>
        have hfl : ligandFails e = false := by simp [ligandFails, hfail]
        simp [recordResult, hfail, hfl]
        omega
      | some s =>
        have hfl : ligandFails e = true := by simp [ligandFails, hfail]
        simp [recordResult, hfail, hfl]
    · rw [ihf]
      cases hfail : (runLigand e).2 with
      | none =>
        have hfl : ligandFails e = false := by simp [ligandFails, hfail]
        simp [recordResult, hfail, hfl]
      | some s =>
        have hfl : ligandFails e = true := by simp [ligandFails, hfail]
        simp [recordResult, hfail, hfl]
        omega
    · rw [ihst]
      simp [recordResult]
    · rw [iht]
      simp [recordResult]

/-- Claim C3: with no job-level fault, every ligand contributes one recorded
result, the failed counter counts exactly the failing pipelines — nonzero as
soon as one fails — and the job reaches completed even when some (but not
all) pipelines fail; a job-level fault (receptor preparation or workspace
creation) instead yields status failed. -/
theorem runJob_isolates_ligand_failures (init : DockingJob)
    (envs : List LigandEnv) (t : ℚ) (ct : String)
    (hres : init.ligand_results = []) (_hsc : init.successful_docks = 0)
    (hfl : init.failed_docks = 0) :
    ((runJob init none envs t ct).status = JobStatus.completed ∧
      (runJob init none envs t ct).ligand_results
        = envs.map (fun e => (runLigand e).1) ∧
      (runJob init none envs t ct).ligand_results.length = envs.length ∧
      (runJob init none envs t ct).failed_docks
        = (envs.filter (fun e => ligandFails e)).length ∧
      ((∃ e ∈ envs, ligandFails e = true) →
        (runJob init none envs t ct).failed_docks ≠ 0)) ∧
    (∀ fault : JobFault,
      (runJob init (some fault) envs t ct).status = JobStatus.failed) := by
  obtain ⟨hr, hs, hf, hst, ht⟩ :=
    foldl_recordResult envs { init with status := JobStatus.processing }
  have hjr : (runJob init none envs t ct).ligand_results
      = envs.map (fun e => (runLigand e).1) := by
    simp only [runJob]
    rw [hr]
    simp [hres]
  have hjf : (runJob init none envs t ct).failed_docks
      = (envs.filter (fun e => ligandFails e)).length := by
    simp only [runJob]
    rw [hf]
    simp [hfl]
  refine ⟨⟨by simp [runJob], hjr, by rw [hjr]; simp, hjf, ?_⟩, fun fault => ?_⟩
  · rintro ⟨e, he, hfail⟩
    rw [hjf]
    intro hlen
    have : envs.filter (fun e => ligandFails e) = [] :=
      List.eq_nil_of_length_eq_zero hlen
    have : ∀ x ∈ envs, ¬ ligandFails x = true := by
      simpa [List.filter_eq_nil_iff] using this
    exact this e he hfail
  · cases fault <;> simp [runJob]

/-- Modelled from the spec: the job record created at intake (section 3):
status pending, empty ligand_results, zero counters, no timestamps beyond
created_at. -/
def initialJobRecord (jid receptor : String) (total : ℕ) (created : String) :
    DockingJob :=
  { job_id := jid
    status := JobStatus.pending
    receptor_name := receptor
    ligand_results := []
    total_ligands := total
    successful_docks := 0
    failed_docks := 0
    processing_time := none
    error_message := none
    created_at := created
    completed_at := none }

/-- The concrete failing third ligand environment of envsEx. -/
def envFail3 : LigandEnv :=
  { name := "lig3.sdf", prep := ToolRes.failed 1 "unsupported format"
    dock := ToolRes.ok, engineOut := "" }

/-- The five concrete ligand environments used to witness claims C1 and C3:
the third preparation step fails, the other four pipelines succeed. -/
def envsEx : List LigandEnv :=
  [{ name := "lig1.sdf", prep := ToolRes.ok, dock := ToolRes.ok,
     engineOut := "1 -7 0 2" },
   { name := "lig2.sdf", prep := ToolRes.ok, dock := ToolRes.ok,
     engineOut := "1 -6 0 2" },
   envFail3,
   { name := "lig4.sdf", prep := ToolRes.ok, dock := ToolRes.ok,
     engineOut := "1 -5 0 2" },
   { name := "lig5.sdf", prep := ToolRes.ok, dock := ToolRes.ok,
     engineOut := "1 -8 0 2" }]

/-- The concrete pending job record the witness orchestration starts from. -/
def initJobEx : DockingJob := initialJobRecord "job-3" "1abc.pdbqt" 5 "t0"

/-- Witness for claim C3: on the five concrete pipelines of envsEx, where
only the third fails, the job completes with five recorded results and a
nonzero failed counter. -/
theorem runJob_isolates_witness :
    (runJob initJobEx none envsEx 2 "t1").status = JobStatus.completed ∧
    (runJob initJobEx none envsEx 2 "t1").ligand_results.length = 5 ∧
    (runJob initJobEx none envsEx 2 "t1").failed_docks ≠ 0 :=
  have h := (runJob_isolates_ligand_failures initJobEx envsEx 2 "t1"
    (by decide) (by decide) (by decide)).1
  ⟨h.1, h.2.2.1.trans (by decide),
    h.2.2.2.2 ⟨envFail3, by decide, by decide⟩⟩

/-- The LigandResult of a pipeline carries the name of its input ligand. -/
theorem runLigand_name (env : LigandEnv) : (runLigand env).1.ligand_name = env.name := by
  unfold runLigand
  cases env.prep <;> try rfl
  cases env.dock <;> try rfl
  rcases parse env.engineOut with e | recs
  · cases e
    rfl
  · cases recs <;> rfl

/-- Counterexample to claim C1 as stated: the LigandResult record declared
in types/index.ts carries no failure_reason field at all, and its
binding_affinity field is not optional, so a failed ligand cannot be
recorded with a null or absent score. -/
theorem ligandResult_lacks_failure_reason :
    ("failure_reason" ∈ ligandResultFields.map Prod.fst) = False ∧
    (("binding_affinity", true) ∈ ligandResultFields) = False ∧
    ("binding_affinity", false) ∈ ligandResultFields := by
  refine ⟨by simp [ligandResultFields], by simp [ligandResultFields], by
    simp [ligandResultFields]⟩

/-- Claim C1 (amended): for every input ligand of a job, exactly one
LigandResult is recorded — never zero, never more than one — whether the
dock succeeded or failed and whatever order the per-ligand pipelines
complete in (the theorem quantifies over an arbitrary completion order of
the batch, per section 5 of the spec); the record carries ligand_name,
binding_affinity, rmsd_lower_bound, rmsd_upper_bound and an optional
pose_file reference, but no failure_reason field and no optional score; a
failed ligand is still recorded rather than omitted. -/
theorem one_result_per_ligand (init : DockingJob) (envs order : List LigandEnv)
    (t : ℚ) (ct : String) (hres : init.ligand_results = [])
    (hperm : List.Perm order envs) :
    (runJob init none order t ct).ligand_results.length = envs.length ∧
    List.Perm
      ((runJob init none order t ct).ligand_results.map
        LigandResult.ligand_name)
      (envs.map LigandEnv.name) ∧
    (∀ e ∈ envs,
      e.name ∈ (runJob init none order t ct).ligand_results.map
        LigandResult.ligand_name) ∧
    ligandResultFields.map Prod.fst =
      ["ligand_name", "binding_affinity", "rmsd_lower_bound",
       "rmsd_upper_bound", "pose_file"] ∧
    "failure_reason" ∉ ligandResultFields.map Prod.fst := by
  obtain ⟨hr, _, _, _, _⟩ :=
    foldl_recordResult order { init with status := JobStatus.processing }
  have hjr : (runJob init none order t ct).ligand_results
      = order.map (fun e => (runLigand e).1) := by
    simp only [runJob]
    rw [hr]
    simp [hres]
  have hnames : (runJob init none order t ct).ligand_results.map
      LigandResult.ligand_name = order.map LigandEnv.name := by
    rw [hjr, List.map_map]
    exact List.map_congr_left fun e _ => runLigand_name e
  have hpermn : List.Perm
      ((runJob init none order t ct).ligand_results.map
        LigandResult.ligand_name)
      (envs.map LigandEnv.name) := by
    rw [hnames]
    exact hperm.map LigandEnv.name
  refine ⟨?_, hpermn, ?_, by simp [ligandResultFields],
    by simp [ligandResultFields]⟩
  · rw [hjr]
    simp [hperm.length_eq]
  · intro e he
    exact hpermn.mem_iff.mpr (List.mem_map.mpr ⟨e, he, rfl⟩)

/-- Witness for claim C1: one concrete completion order of the five
pipelines of envsEx (third one failing) records five results, among them one
for the failed ligand. -/
theorem one_result_per_ligand_witness :
    (runJob initJobEx none envsEx 2 "t1").ligand_results.length = 5 ∧
    "lig3.sdf" ∈ (runJob initJobEx none envsEx 2 "t1").ligand_results.map
      LigandResult.ligand_name :=
  have h := one_result_per_ligand initJobEx envsEx envsEx 2 "t1" (by decide)
    (List.Perm.refl envsEx)
  ⟨h.1.trans (by decide), h.2.2.1 envFail3 (by decide)⟩

/-- Modelled from the spec: the atomic mutations the owning Job Orchestrator
applies to its job record through the Job Store (sections 3, 4.5, 4.6):
pick up a pending job, record one ligand outcome while processing, commit
completion once every ligand is accounted for, or commit a job-level
failure while processing. -/
inductive JobStep : DockingJob → DockingJob → Prop where
  | start (j : DockingJob) (h : j.status = JobStatus.pending) :
      JobStep j { j with status := JobStatus.processing }
  | record (j : DockingJob) (res : LigandResult × Option String)
      (h : j.status = JobStatus.processing) :
      JobStep j (recordResult j res)
  | complete (j : DockingJob) (t : ℚ) (ct : String)
      (h : j.status = JobStatus.processing)
      (hall : j.successful_docks + j.failed_docks = j.total_ligands) :
      JobStep j { j with status := JobStatus.completed
                         processing_time := some t
                         completed_at := some ct }
  | failJob (j : DockingJob) (msg : String) (t : ℚ) (ct : String)
      (h : j.status = JobStatus.processing) :
      JobStep j { j with status := JobStatus.failed
                         error_message := some msg
                         processing_time := some t
                         completed_at := some ct }

/-- A job record reachable from a given record by orchestrator steps. -/
def ReachableJob (init j : DockingJob) : Prop :=
  Relation.ReflTransGen JobStep init j

/-- Claim C2 (amended): in every state of a job record reachable from its
intake record, ligand_results.length = successful_docks + failed_docks, and
successful_docks + failed_docks = total_ligands whenever the status is
completed; after a job-level fault the status is failed while the counters
still reflect only the ligands recorded before the fault, so the sum can
stay below total_ligands. -/
theorem job_counters_invariant (jid receptor created : String) (total : ℕ)
    (j : DockingJob)
    (hreach : ReachableJob (initialJobRecord jid receptor total created) j) :
    j.ligand_results.length = j.successful_docks + j.failed_docks ∧
    (j.status = JobStatus.completed →
      j.successful_docks + j.failed_docks = j.total_ligands) := by
  induction hreach with
  | refl => simp [initialJobRecord]
  | tail _ hstep ih =>
    obtain ⟨ihlen, ihdone⟩ := ih
    cases hstep with
    | start h =>
      refine ⟨ihlen, fun hc => ?_⟩
      simp at hc
    | record res h =>
      refine ⟨?_, fun hc => ?_⟩
      · cases hv : res.2 <;> simp [recordResult, hv, ihlen] <;> omega
      · simp [recordResult] at hc
        simp [h] at hc
    | complete t ct h hall =>
      exact ⟨ihlen, fun _ => hall⟩
    | failJob msg t ct h =>
      refine ⟨ihlen, fun hc => ?_⟩
      simp at hc

/-- Witness for claim C2: the amended invariant applied to the intake record
itself, reachable in zero steps. -/
theorem job_counters_invariant_witness :
    (initialJobRecord "job-2w" "1abc.pdbqt" 3 "t0").ligand_results.length =
      (initialJobRecord "job-2w" "1abc.pdbqt" 3 "t0").successful_docks +
      (initialJobRecord "job-2w" "1abc.pdbqt" 3 "t0").failed_docks :=
  (job_counters_invariant "job-2w" "1abc.pdbqt" "t0" 3 _
    Relation.ReflTransGen.refl).1

/-- The concrete pending intake record of a one-ligand job used in the
counterexample to claim C2. -/
def pendingJobC2 : DockingJob := initialJobRecord "job-2" "1abc.pdbqt" 1 "t0"

/-- pendingJobC2 after being picked up by the orchestrator. -/
def processingJobC2 : DockingJob :=
  { pendingJobC2 with status := JobStatus.processing }

/-- processingJobC2 after a receptor preparation fault. -/
def failedJobC2 : DockingJob :=
  { processingJobC2 with status := JobStatus.failed
                         error_message := some "receptor preparation failed"
                         processing_time := some 1
                         completed_at := some "t1" }

/-- Counterexample to claim C2 as stated: a one-ligand job that fails at
receptor preparation reaches the reachable terminal state failedJobC2 with
status failed while successful_docks + failed_docks = 0 differs from
total_ligands = 1. -/
theorem failed_job_counters_gap :
    JobStep pendingJobC2 processingJobC2 ∧
    JobStep processingJobC2 failedJobC2 ∧
    ReachableJob pendingJobC2 failedJobC2 ∧
    failedJobC2.status = JobStatus.failed ∧
    failedJobC2.successful_docks + failedJobC2.failed_docks ≠
      failedJobC2.total_ligands := by
  have h1 : JobStep pendingJobC2 processingJobC2 :=
    JobStep.start pendingJobC2 rfl
  have h2 : JobStep processingJobC2 failedJobC2 :=
    JobStep.failJob processingJobC2 "receptor preparation failed" 1 "t1" rfl
  exact ⟨h1, h2,
    Relation.ReflTransGen.head h1 (Relation.ReflTransGen.head h2
      Relation.ReflTransGen.refl),
    rfl, by decide⟩

/-- Claim C5: every status value is one of pending, processing, completed
and failed; an orchestrator step changes the status only along the edges
pending to processing, processing to completed and processing to failed; and
no orchestrator step applies to a job whose status is terminal, so a
terminal job record never changes again (only deletion of the whole record
at the store can remove it). -/
theorem status_state_machine :
    (∀ s : JobStatus, s = JobStatus.pending ∨ s = JobStatus.processing ∨
      s = JobStatus.completed ∨ s = JobStatus.failed) ∧
    (∀ j k : DockingJob, JobStep j k → j.status ≠ k.status →
      (j.status = JobStatus.pending ∧ k.status = JobStatus.processing) ∨
      (j.status = JobStatus.processing ∧
        (k.status = JobStatus.completed ∨ k.status = JobStatus.failed))) ∧
    (∀ j k : DockingJob,
      j.status = JobStatus.completed ∨ j.status = JobStatus.failed →
      ¬ JobStep j k) := by
  refine ⟨fun s => by cases s <;> simp, ?_, ?_⟩
  · intro j k hstep hne
    cases hstep with
    | start h => exact Or.inl ⟨h, rfl⟩
    | record res h => exact absurd rfl hne
    | complete t ct h hall => exact Or.inr ⟨h, Or.inl rfl⟩
    | failJob msg t ct h => exact Or.inr ⟨h, Or.inr rfl⟩
  · intro j k hterm hstep
    cases hstep <;> rcases hterm with h2 | h2 <;> simp_all

/-- Witness for claim C5: no orchestrator step applies to a concrete
completed job record. -/
theorem status_state_machine_witness :
    ¬ JobStep
      { initialJobRecord "job-5" "1abc.pdbqt" 0 "t0" with
          status := JobStatus.completed }
      (initialJobRecord "job-5" "1abc.pdbqt" 0 "t0") :=
  status_state_machine.2.2 _ _ (Or.inl rfl)

/-- Modelled from the spec: the intake validation error taxonomy
(sections 6, 7); every rejection names its specific reason. -/
inductive ValidationError where
  | badExtension (filename : String)
  | paramOutOfRange (param : String)
  | emptyLigandList
  | payloadTooLarge (filename : String)
  deriving DecidableEq

/-- An uploaded file as the validated intake sees it: its name and its
payload size in bytes. -/
structure UploadFile where
  filename : String
  size : ℕ
  deriving DecidableEq

/-- Supported receptor formats (section 6 and the upload form): PDB and
PDBQT. -/
def receptorExtensions : List String := [".pdb", ".pdbqt"]

/-- Supported ligand formats (section 6 and the upload form): PDB, PDBQT,
SDF and MOL2. -/
def ligandExtensions : List String := [".pdb", ".pdbqt", ".sdf", ".mol2"]

/-- Whether a file name ends with one of the allowed extensions. -/
def hasExt (exts : List String) (name : String) : Bool :=
  exts.any (fun e => e.data.isSuffixOf name.data)

/-- Whether the docking parameters are in range (section 6): positive search
box sizes, exhaustiveness within 1..32, num_modes within 1..20; the center
coordinates may be any reals. -/
def paramsInRange (p : DockingParameters) : Bool :=
  decide (0 < p.size_x) && decide (0 < p.size_y) && decide (0 < p.size_z) &&
  decide (1 ≤ p.exhaustiveness) && decide (p.exhaustiveness ≤ 32) &&
  decide (1 ≤ p.num_modes) && decide (p.num_modes ≤ 20)

/-- A submission as the intake boundary sees it: the receptor file, the
ligand files, and the docking parameters. -/
structure SubmitRequest where
  receptor : UploadFile
  ligands : List UploadFile
  params : DockingParameters
  deriving DecidableEq

/-- Modelled from the spec: intake validation (section 6): receptor
extension, ligand extensions, parameter ranges, nonempty ligand list and the
configured maximum payload size per file, reporting the first specific
failure found, or none when the submission is valid. -/
def validateSubmission (maxSize : ℕ) (req : SubmitRequest) :
    Option ValidationError :=
  if !hasExt receptorExtensions req.receptor.filename then
    some (ValidationError.badExtension req.receptor.filename)
  else
    match req.ligands.find? (fun f => !hasExt ligandExtensions f.filename) with
    | some f => some (ValidationError.badExtension f.filename)
    | none =>
      if !paramsInRange req.params then
        some (ValidationError.paramOutOfRange "docking parameters")
      else if req.ligands.isEmpty then some ValidationError.emptyLigandList
      else
        match (req.receptor :: req.ligands).find?
            (fun f => decide (maxSize < f.size)) with
        | some f => some (ValidationError.payloadTooLarge f.filename)
        | none => none

/-- Modelled from the spec: the submit boundary (section 6): a validation
failure is reported synchronously with its specific reason and creates no
job; a valid submission appends one new pending job record to the store and
returns its identifier immediately. -/
def handleSubmit (store : List DockingJob) (maxSize : ℕ) (req : SubmitRequest)
    (newId created : String) : List DockingJob × Except ValidationError String :=
  match validateSubmission maxSize req with
  | some e => (store, Except.error e)
  | none =>
    (store ++
      [initialJobRecord newId req.receptor.filename req.ligands.length created],
     Except.ok newId)

/-- Claim C6: every invalid submission is rejected synchronously with its
specific reason while the job store is left unchanged, so no DockingJob
record is ever created for it; and each invalid-input category — bad
receptor extension, bad ligand extension, out-of-range parameter, empty
ligand list, oversized payload — is indeed caught by validation. -/
theorem invalid_submit_creates_no_job (store : List DockingJob) (maxSize : ℕ)
    (req : SubmitRequest) (newId created : String) :
    (∀ e, validateSubmission maxSize req = some e →
      handleSubmit store maxSize req newId created = (store, Except.error e)) ∧
    (hasExt receptorExtensions req.receptor.filename = false →
      validateSubmission maxSize req ≠ none) ∧
    ((∃ f ∈ req.ligands, hasExt ligandExtensions f.filename = false) →
      validateSubmission maxSize req ≠ none) ∧
    (paramsInRange req.params = false →
      validateSubmission maxSize req ≠ none) ∧
    (req.ligands.isEmpty = true → validateSubmission maxSize req ≠ none) ∧
    (maxSize < req.receptor.size → validateSubmission maxSize req ≠ none) := by
  refine ⟨?_, ?_, ?_, ?_, ?_, ?_⟩
  · intro e he
    unfold handleSubmit
    rw [he]
  · intro h
    unfold validateSubmission
    simp [h]
  · rintro ⟨f, hf, hext⟩
    unfold validateSubmission
    split
    · simp
    · cases hfind : req.ligands.find?
          (fun f => !hasExt ligandExtensions f.filename) with
      | some g => simp [hfind]
      | none =>
        rw [List.find?_eq_none] at hfind
        exact absurd (by simp [hext]) (hfind f hf)
  · intro h
    unfold validateSubmission
    split
    · simp
    · split
      · simp
      · simp [h]
  · intro h
    unfold validateSubmission
    split
    · simp
    · split
      · simp
      · split
        · simp
        · simp [h]
  · intro h
    unfold validateSubmission
    split
    · simp
    · split
      · simp
      · split
        · simp
        · split
          · simp
          · rw [List.find?_cons_of_pos _ (by simpa using h)]
            simp

/-- The docking parameter defaults of the upload form in DockingUpload.tsx. -/
def defaultParamsEx : DockingParameters :=
  { center_x := 0, center_y := 0, center_z := 0
    size_x := 20, size_y := 20, size_z := 20
    exhaustiveness := 8, num_modes := 9 }

/-- A concrete submission whose receptor file has an unsupported
extension. -/
def badExtReqEx : SubmitRequest :=
  { receptor := { filename := "receptor.txt", size := 10 }
    ligands := [{ filename := "lig1.sdf", size := 10 }]
    params := defaultParamsEx }

/-- Witness for claim C6: submitting badExtReqEx is rejected with the
specific bad-extension reason and the empty job store stays empty. -/
theorem invalid_submit_witness :
    handleSubmit [] 100 badExtReqEx "job-6" "t0" =
      ([], Except.error (ValidationError.badExtension "receptor.txt")) :=
  (invalid_submit_creates_no_job [] 100 badExtReqEx "job-6" "t0").1
    (ValidationError.badExtension "receptor.txt") (by decide)

/-- Modelled from the spec: the server state behind the Job Store and the
Workspace Manager (sections 4.1, 4.6): the job records and the per-job
workspaces, keyed by job identifier. -/
structure ServerState where
  jobs : List DockingJob
  workspaces : List String
  deriving DecidableEq

/-- Modelled from the spec: the NotFound failure of status, result and
delete requests for an unknown job identifier (section 6). -/
inductive ApiError where
  | notFound
  deriving DecidableEq

/-- Modelled from the spec: delete (sections 4.6 and 6, and the deleteJob
client call in services/api.ts): when the job exists its record and its
workspace are removed; otherwise the call fails with NotFound and the state
is unchanged. -/
def deleteJob (st : ServerState) (jid : String) : ServerState × Option ApiError :=
  if st.jobs.any (fun j => j.job_id == jid) then
    ({ jobs := st.jobs.filter (fun j => !(j.job_id == jid))
       workspaces := st.workspaces.filter (fun w => !(w == jid)) }, none)
  else (st, some ApiError.notFound)

/-- Claim C7: after any delete the identifier is gone, so a second delete of
the same identifier — and any delete of an identifier never created —
returns NotFound without crashing and leaves the state unchanged; the first
delete of an existing job removes exactly that record and its workspace,
and every other job record survives untouched. -/
theorem delete_idempotent_notFound (st : ServerState) (jid : String) :
    (deleteJob st jid).1.jobs.any (fun j => j.job_id == jid) = false ∧
    deleteJob (deleteJob st jid).1 jid =
      ((deleteJob st jid).1, some ApiError.notFound) ∧
    (st.jobs.any (fun j => j.job_id == jid) = false →
      deleteJob st jid = (st, some ApiError.notFound)) ∧
    (st.jobs.any (fun j => j.job_id == jid) = true →
      ∀ w ∈ (deleteJob st jid).1.workspaces, (w == jid) = false) ∧
    (∀ j ∈ st.jobs, (j.job_id == jid) = false → j ∈ (deleteJob st jid).1.jobs) ∧
    (∀ j ∈ (deleteJob st jid).1.jobs, j ∈ st.jobs) := by
  have hgone : (deleteJob st jid).1.jobs.any (fun j => j.job_id == jid) = false := by
    unfold deleteJob
    split
    · rename_i hany
      simp only [List.any_eq_false]
      intro j hj
      have := List.of_mem_filter hj
      simpa using this
    · rename_i hany
      simpa using hany
  refine ⟨hgone, ?_, ?_, ?_, ?_, ?_⟩
  · rw [deleteJob, if_neg (by simp [hgone])]
  · intro h
    unfold deleteJob
    rw [if_neg (by simp [h])]
  · intro hany w hw
    revert hw
    unfold deleteJob
    rw [if_pos (by simp [hany])]
    intro hw
    simpa using List.of_mem_filter hw
  · intro j hj hne
    unfold deleteJob
    split
    · exact List.mem_filter.mpr ⟨hj, by simp [hne]⟩
    · exact hj
  · intro j hj
    revert hj
    unfold deleteJob
    split
    · intro hj
      exact List.mem_of_mem_filter hj
    · intro hj
      exact hj

/-- Witness for claim C7: deleting an identifier from the empty server state
returns NotFound and leaves the state unchanged. -/
theorem delete_idempotent_witness :
    deleteJob { jobs := [], workspaces := [] } "job-7" =
      ({ jobs := [], workspaces := [] }, some ApiError.notFound) :=
  (delete_idempotent_notFound { jobs := [], workspaces := [] } "job-7").2.2.1
    (by decide)
